import Mathlib

/-!
Verification of the drag-and-inertia positioning engine of the
react-flow-overview repository (src/Canvas.tsx).

The component keeps a 2D offset for a draggable content surface, clamps it
into derived bounds on every mutation, and after a pointer release runs an
inertia animation that repeatedly adds the velocity to the offset and decays
the velocity by 0.9 per frame until both components have magnitude at most
0.5.  JavaScript numbers are modelled as exact rationals; requestAnimationFrame
scheduling is modelled by a list of pending frame ids together with the single
stored handle (animationFrame.current), and cancelAnimationFrame removes the
referenced id from the pending list.
-/

namespace Canvas

/-- A 2D vector of rational coordinates (offset, velocity, pointer position). -/
structure Vec2 where
  x : ℚ
  y : ℚ
deriving DecidableEq, Repr

/-- Configuration read from the layout: the computed total content width and
the height of the tallest card (totalWidth and tallestCard in Canvas.tsx). -/
structure Config where
  totalWidth : ℚ
  tallestCard : ℚ
deriving DecidableEq, Repr

/-- The browser environment read at each event: the container clientWidth
(absent when the ref is unset) and the window inner dimensions. -/
structure Env where
  clientWidth : Option ℚ
  innerWidth : ℚ
  innerHeight : ℚ
deriving DecidableEq, Repr

/-- containerRef.current?.clientWidth || window.innerWidth : a missing ref or a
zero clientWidth (both falsy) fall back to the window inner width. -/
def containerWidth (e : Env) : ℚ :=
  match e.clientWidth with
  | some w => if w = 0 then e.innerWidth else w
  | none => e.innerWidth

/-- The derived legal minimum for each axis of the offset. -/
structure Bounds where
  minX : ℚ
  minY : ℚ
deriving DecidableEq, Repr

/-- minX = Math.min(0, containerWidth - totalWidth);
minY = Math.min(0, window.innerHeight - tallestCard - 32). -/
def bounds (cfg : Config) (e : Env) : Bounds :=
  ⟨min 0 (containerWidth e - cfg.totalWidth),
   min 0 (e.innerHeight - cfg.tallestCard - 32)⟩

/-- One axis of the clamp: Math.max(m, Math.min(0, v)). -/
def clampAxis (m v : ℚ) : ℚ := max m (min 0 v)

/-- The bounds clamper applied to a proposed offset, one axis at a time. -/
def clamp (b : Bounds) (p : Vec2) : Vec2 :=
  ⟨clampAxis b.minX p.x, clampAxis b.minY p.y⟩

/-- Membership of an offset in the legal range [minX,0] x [minY,0]. -/
def inBounds (b : Bounds) (p : Vec2) : Prop :=
  b.minX ≤ p.x ∧ p.x ≤ 0 ∧ b.minY ≤ p.y ∧ p.y ≤ 0

instance (b : Bounds) (p : Vec2) : Decidable (inBounds b p) := by
  unfold inBounds; infer_instance

/-- The example cards of Canvas.tsx, as (id, height) pairs. -/
def steps : List (ℕ × ℚ) :=
  [(1, 200), (2, 400), (3, 150), (4, 150), (5, 150),
   (6, 150), (7, 150), (8, 150), (9, 150), (10, 150)]

def cardWidth : ℚ := 200

def gapWidth : ℚ := 20

/-- paddingX = 16 * 2 (left + right padding). -/
def paddingX : ℚ := 16 * 2

/-- totalWidth = steps.length * cardWidth + (steps.length - 1) * gap + paddingX. -/
def totalWidth : ℚ :=
  (steps.length : ℚ) * cardWidth + ((steps.length : ℚ) - 1) * gapWidth + paddingX

/-- tallestCard = Math.max(...steps.map(s => s.height)); the heights are all
positive so folding max from 0 over the list gives the same value. -/
def tallestCard : ℚ := (steps.map Prod.snd).foldl max 0

/-- The configuration of the actual repository layout. -/
def repoConfig : Config := ⟨totalWidth, tallestCard⟩

/-- Per-frame velocity decay: velocity *= 0.9 on each axis. -/
def decayVec (v : Vec2) : Vec2 := ⟨v.x * (9 / 10), v.y * (9 / 10)⟩

/-- The continuation condition of animateMomentum:
Math.abs(velocity.x) > 0.5 || Math.abs(velocity.y) > 0.5. -/
def continues (v : Vec2) : Bool :=
  if 1 / 2 < |v.x| ∨ 1 / 2 < |v.y| then true else false

/-- Both velocity components have decayed to magnitude at most 0.5. -/
def stoppedVec (v : Vec2) : Prop := |v.x| ≤ 1 / 2 ∧ |v.y| ≤ 1 / 2

instance (v : Vec2) : Decidable (stoppedVec v) := by
  unfold stoppedVec; infer_instance

/-- The body of one animateMomentum frame: clamp the offset moved by the
velocity against freshly computed bounds, then decay the velocity. -/
def momentumStep (cfg : Config) (e : Env) (o v : Vec2) : Vec2 × Vec2 :=
  (clamp (bounds cfg e) ⟨o.x + v.x, o.y + v.y⟩, decayVec v)

/-- The mutable controller state of the component: the refs of Canvas.tsx
plus the multiset (kept as a list in scheduling order) of pending
animateMomentum frames and the id counter of requestAnimationFrame. -/
structure CState where
  offset : Vec2
  isDragging : Bool
  lastPos : Vec2
  velocity : Vec2
  pending : List ℕ
  handle : Option ℕ
  nextId : ℕ
deriving DecidableEq, Repr

/-- Initial state: offset (0,0), not dragging, no scheduled frames; browser
frame ids start at 1 (they are truthy). -/
def initState : CState := ⟨⟨0, 0⟩, false, ⟨0, 0⟩, ⟨0, 0⟩, [], none, 1⟩

/-- The gesture and scheduler events the controller reacts to.  pointerUp
stands for both terminal events (pointerup and pointerleave are registered to
the same handler); frame h is the firing of the scheduled animateMomentum
continuation with id h. -/
inductive Event where
  | pointerDown (p : Vec2)
  | pointerMove (p : Vec2)
  | pointerUp
  | frame (h : ℕ)
deriving DecidableEq, Repr

/-- One transition of the controller, from the handlers in Canvas.tsx.

pointerDown: if animationFrame.current is set, cancelAnimationFrame it (the
handle is not cleared, and cancelling an id that is no longer pending is a
no-op); set isDragging, record the pointer position, reset the velocity.

pointerMove: ignored unless dragging; compute (dx, dy) from the last pointer
position, recompute bounds, clamp offset + (dx, dy), store (dx, dy) as the
velocity, and record the new pointer position.  (The render scheduled via
requestAnimationFrame(updateTransform) does not touch controller state and
its id is not stored, so it is not modelled.)

pointerUp: unconditionally clear isDragging and schedule animateMomentum,
storing the new frame id in the handle.

frame h: fires only if h is still pending; runs one momentumStep and, when
the decayed velocity still exceeds the threshold, schedules the next frame. -/
def stepEvent (cfg : Config) (e : Env) (s : CState) (ev : Event) : CState :=
  match ev with
  | .pointerDown p =>
      let pending := match s.handle with
        | some h => s.pending.erase h
        | none => s.pending
      { s with pending := pending, isDragging := true, lastPos := p,
               velocity := ⟨0, 0⟩ }
  | .pointerMove p =>
      if s.isDragging then
        let dx := p.x - s.lastPos.x
        let dy := p.y - s.lastPos.y
        { s with offset := clamp (bounds cfg e) ⟨s.offset.x + dx, s.offset.y + dy⟩,
                 velocity := ⟨dx, dy⟩, lastPos := p }
      else s
  | .pointerUp =>
      { s with isDragging := false,
               pending := s.pending ++ [s.nextId],
               handle := some s.nextId,
               nextId := s.nextId + 1 }
  | .frame h =>
      if h ∈ s.pending then
        let rest := s.pending.erase h
        let ov := momentumStep cfg e s.offset s.velocity
        if continues ov.2 then
          { s with offset := ov.1, velocity := ov.2,
                   pending := rest ++ [s.nextId], handle := some s.nextId,
                   nextId := s.nextId + 1 }
        else
          { s with offset := ov.1, velocity := ov.2, pending := rest }
      else s

/-- Run a list of (environment, event) pairs from a state. -/
def runTrace (cfg : Config) (s : CState) : List (Env × Event) → CState
  | [] => s
  | p :: tr => runTrace cfg (stepEvent cfg p.1 s p.2) tr

/-- Fire the oldest pending animateMomentum continuation, if any. -/
def fireOne (cfg : Config) (e : Env) (s : CState) : CState :=
  match s.pending with
  | [] => s
  | h :: _ => stepEvent cfg e s (.frame h)

/-! ## Basic clamp lemmas -/

lemma clampAxis_idem (m v : ℚ) : clampAxis m (clampAxis m v) = clampAxis m v := by
  unfold clampAxis
  rcases le_total m (min 0 v) with h | h
  · rw [max_eq_right h, min_eq_right (min_le_left 0 v), max_eq_right h]
  · rw [max_eq_left h]
    rcases le_total m 0 with hm | hm
    · rw [min_eq_right hm, max_self]
    · rw [min_eq_left hm, max_eq_left hm]

lemma clampAxis_mem (m v : ℚ) (hm : m ≤ 0) :
    m ≤ clampAxis m v ∧ clampAxis m v ≤ 0 := by
  refine ⟨le_max_left _ _, ?_⟩
  exact max_le hm (min_le_left 0 v)

lemma clampAxis_of_mem (m v : ℚ) (h1 : m ≤ v) (h2 : v ≤ 0) :
    clampAxis m v = v := by
  unfold clampAxis
  rw [min_eq_right h2, max_eq_right h1]

lemma bounds_minX_nonpos (cfg : Config) (e : Env) : (bounds cfg e).minX ≤ 0 :=
  min_le_left _ _

lemma bounds_minY_nonpos (cfg : Config) (e : Env) : (bounds cfg e).minY ≤ 0 :=
  min_le_left _ _

lemma clamp_inBounds (b : Bounds) (o : Vec2) (hx : b.minX ≤ 0) (hy : b.minY ≤ 0) :
    inBounds b (clamp b o) :=
  ⟨(clampAxis_mem _ _ hx).1, (clampAxis_mem _ _ hx).2,
   (clampAxis_mem _ _ hy).1, (clampAxis_mem _ _ hy).2⟩

lemma clamp_of_inBounds (b : Bounds) (o : Vec2) (h : inBounds b o) :
    clamp b o = o := by
  obtain ⟨h1, h2, h3, h4⟩ := h
  unfold clamp
  rw [clampAxis_of_mem _ _ h1 h2, clampAxis_of_mem _ _ h3 h4]

/-- C5: the clamp operation is idempotent for every proposed offset and every
bounds, and whenever the bounds minima are nonpositive — as the derived bounds
of the code always are — its output lies in [minX, 0] x [minY, 0] no matter
how far the input exceeds the range. -/
theorem clamp_idempotent_saturating :
    (∀ (b : Bounds) (o : Vec2), clamp b (clamp b o) = clamp b o) ∧
    (∀ (b : Bounds) (o : Vec2), b.minX ≤ 0 → b.minY ≤ 0 →
      inBounds b (clamp b o)) ∧
    (∀ (cfg : Config) (e : Env),
      (bounds cfg e).minX ≤ 0 ∧ (bounds cfg e).minY ≤ 0) := by
  refine ⟨fun b o => ?_, fun b o hx hy => clamp_inBounds b o hx hy,
    fun cfg e => ⟨bounds_minX_nonpos cfg e, bounds_minY_nonpos cfg e⟩⟩
  unfold clamp
  rw [clampAxis_idem, clampAxis_idem]

/-- Witness for C5 at a concrete offset far outside concrete bounds. -/
theorem clamp_idempotent_saturating_witness :
    clamp ⟨-5, -7⟩ (clamp ⟨-5, -7⟩ ⟨100, -100⟩) = clamp ⟨-5, -7⟩ ⟨100, -100⟩ ∧
    inBounds ⟨-5, -7⟩ (clamp ⟨-5, -7⟩ ⟨100, -100⟩) :=
  ⟨clamp_idempotent_saturating.1 ⟨-5, -7⟩ ⟨100, -100⟩,
   clamp_idempotent_saturating.2.1 ⟨-5, -7⟩ ⟨100, -100⟩ (by decide) (by decide)⟩

/-- C6: an inertia step never bounces.  If one axis of the offset sits at its
minimum bound and the velocity on that axis still points outward, the offset
stays exactly at the bound; the other axis advances by its own clamped
velocity; and the velocity is decayed by 0.9 on both axes regardless of the
clamping. -/
theorem inertia_no_bounce (cfg : Config) (e : Env) (o v : Vec2)
    (hx : o.x = (bounds cfg e).minX) (hv : v.x ≤ 0) :
    (momentumStep cfg e o v).1.x = o.x ∧
    (momentumStep cfg e o v).1.y = clampAxis (bounds cfg e).minY (o.y + v.y) ∧
    (momentumStep cfg e o v).2 = decayVec v := by
  refine ⟨?_, rfl, rfl⟩
  show clampAxis (bounds cfg e).minX (o.x + v.x) = o.x
  have hm := bounds_minX_nonpos cfg e
  have h1 : o.x + v.x ≤ (bounds cfg e).minX := by
    rw [hx]; linarith
  unfold clampAxis
  rw [min_eq_right (by linarith), max_eq_left h1, hx]

/-- Evaluation of the bounds used by several concrete witnesses:
viewport 500 x 500, content 2000 wide, tallest card 150. -/
lemma bounds_eval_500 :
    bounds ⟨2000, 150⟩ ⟨some 500, 500, 500⟩ = ⟨-1500, 0⟩ := by
  unfold bounds containerWidth
  norm_num [min_def]

/-- Witness for C6: offset pinned at minX = -1500 with leftward velocity. -/
theorem inertia_no_bounce_witness :
    (({ x := -1500, y := -10 } : Vec2).x =
        (bounds ⟨2000, 150⟩ ⟨some 500, 500, 500⟩).minX ∧
      ({ x := -3, y := 4 } : Vec2).x ≤ 0) ∧
    (momentumStep ⟨2000, 150⟩ ⟨some 500, 500, 500⟩ ⟨-1500, -10⟩ ⟨-3, 4⟩).1.x =
      ({ x := -1500, y := -10 } : Vec2).x ∧
    (momentumStep ⟨2000, 150⟩ ⟨some 500, 500, 500⟩ ⟨-1500, -10⟩ ⟨-3, 4⟩).1.y =
      clampAxis (bounds ⟨2000, 150⟩ ⟨some 500, 500, 500⟩).minY
        (({ x := -1500, y := -10 } : Vec2).y + ({ x := -3, y := 4 } : Vec2).y) ∧
    (momentumStep ⟨2000, 150⟩ ⟨some 500, 500, 500⟩ ⟨-1500, -10⟩ ⟨-3, 4⟩).2 =
      decayVec ⟨-3, 4⟩ :=
  ⟨⟨by rw [bounds_eval_500], by norm_num⟩,
   inertia_no_bounce ⟨2000, 150⟩ ⟨some 500, 500, 500⟩ ⟨-1500, -10⟩ ⟨-3, 4⟩
     (by rw [bounds_eval_500]) (by norm_num)⟩

/-! ## The bounds invariant (C1) -/

/-- Any single transition either leaves the offset untouched (pointer down,
pointer up, ignored move, ignored frame) or writes a clamped value that lies
inside the bounds computed from the environment of that very transition. -/
lemma stepEvent_offset_inBounds (cfg : Config) (e : Env) (s : CState)
    (ev : Event) :
    (stepEvent cfg e s ev).offset = s.offset ∨
    inBounds (bounds cfg e) (stepEvent cfg e s ev).offset := by
  cases ev with
  | pointerDown p => exact Or.inl rfl
  | pointerMove p =>
      cases hd : s.isDragging
      · exact Or.inl (by simp [stepEvent, hd])
      · refine Or.inr ?_
        simp only [stepEvent, hd, if_true]
        exact clamp_inBounds _ _ (bounds_minX_nonpos cfg e)
          (bounds_minY_nonpos cfg e)
  | pointerUp => exact Or.inl rfl
  | frame h =>
      by_cases hm : h ∈ s.pending
      · refine Or.inr ?_
        have ho : (stepEvent cfg e s (.frame h)).offset =
            clamp (bounds cfg e)
              ⟨s.offset.x + s.velocity.x, s.offset.y + s.velocity.y⟩ := by
          simp only [stepEvent, if_pos hm, momentumStep]
          split <;> rfl
        rw [ho]
        exact clamp_inBounds _ _ (bounds_minX_nonpos cfg e)
          (bounds_minY_nonpos cfg e)
      · exact Or.inl (by simp [stepEvent, hm])

lemma runTrace_append (cfg : Config) (s : CState)
    (tr₁ tr₂ : List (Env × Event)) :
    runTrace cfg s (tr₁ ++ tr₂) = runTrace cfg (runTrace cfg s tr₁) tr₂ := by
  induction tr₁ generalizing s with
  | nil => rfl
  | cons p tr ih => simp [runTrace, ih]

lemma runTrace_take_succ (cfg : Config) (s : CState)
    (tr : List (Env × Event)) (i : ℕ) (hi : i < tr.length) :
    runTrace cfg s (tr.take (i + 1)) =
      stepEvent cfg (tr.get ⟨i, hi⟩).1 (runTrace cfg s (tr.take i))
        (tr.get ⟨i, hi⟩).2 := by
  have h : tr.take (i + 1) = tr.take i ++ [tr.get ⟨i, hi⟩] := by
    rw [← List.take_concat_get tr i hi, List.concat_eq_append]
    simp [List.get_eq_getElem]
  rw [h, runTrace_append]
  rfl

/-- C1: for every sequence of gesture events and inertia frames, after every
step of the run either the offset was not mutated or it lies in
[minX, 0] x [minY, 0] for the bounds recomputed from the environment of that
step; hence the offset is never observed out of range after a mutation. -/
theorem offset_in_bounds_after_mutation (cfg : Config) (s0 : CState)
    (tr : List (Env × Event)) (i : ℕ) (hi : i < tr.length) :
    (runTrace cfg s0 (tr.take (i + 1))).offset =
      (runTrace cfg s0 (tr.take i)).offset ∨
    inBounds (bounds cfg (tr.get ⟨i, hi⟩).1)
      (runTrace cfg s0 (tr.take (i + 1))).offset := by
  rw [runTrace_take_succ cfg s0 tr i hi]
  exact stepEvent_offset_inBounds cfg _ _ _

/-- Witness for C1 on a concrete one-event trace. -/
theorem offset_in_bounds_after_mutation_witness :
    0 < ([(⟨some 500, 500, 500⟩, Event.pointerDown ⟨0, 0⟩)] :
        List (Env × Event)).length ∧
    ((runTrace ⟨2000, 150⟩ initState
        (([(⟨some 500, 500, 500⟩, Event.pointerDown ⟨0, 0⟩)] :
          List (Env × Event)).take (0 + 1))).offset =
      (runTrace ⟨2000, 150⟩ initState
        (([(⟨some 500, 500, 500⟩, Event.pointerDown ⟨0, 0⟩)] :
          List (Env × Event)).take 0)).offset ∨
    inBounds
      (bounds ⟨2000, 150⟩
        (([(⟨some 500, 500, 500⟩, Event.pointerDown ⟨0, 0⟩)] :
          List (Env × Event)).get ⟨0, by norm_num⟩).1)
      (runTrace ⟨2000, 150⟩ initState
        (([(⟨some 500, 500, 500⟩, Event.pointerDown ⟨0, 0⟩)] :
          List (Env × Event)).take (0 + 1))).offset) :=
  ⟨by norm_num,
   offset_in_bounds_after_mutation ⟨2000, 150⟩ initState
     [(⟨some 500, 500, 500⟩, Event.pointerDown ⟨0, 0⟩)] 0 (by norm_num)⟩

/-! ## Stray terminal events (C2) -/

/-- A fixed environment: 500 x 500 viewport with the container ref set. -/
def envA : Env := ⟨some 500, 500, 500⟩

/-- A fixed layout: total content width 2000, tallest card 150. -/
def cfgA : Config := ⟨2000, 150⟩

/-- A drag of 2/5 px leftward, released; the single inertia frame fires and
the run terminates (velocity decays to 9/25, below the 1/2 threshold). -/
def strayTrace4 : List (Env × Event) :=
  [(envA, .pointerDown ⟨0, 0⟩), (envA, .pointerMove ⟨-2/5, 0⟩),
   (envA, .pointerUp), (envA, .frame 1)]

/-- strayTrace4 followed by a terminal event received while no gesture is
active (for example a pointerleave after the pointerup) and the inertia frame
it schedules. -/
def strayTrace6 : List (Env × Event) :=
  strayTrace4 ++ [(envA, .pointerUp), (envA, .frame 2)]

lemma strayTrace4_run :
    runTrace cfgA initState strayTrace4 =
      ⟨⟨-4/5, 0⟩, false, ⟨-2/5, 0⟩, ⟨-9/25, 0⟩, [], some 1, 2⟩ := by
  show runTrace cfgA _ _ = _
  norm_num [strayTrace4, runTrace, stepEvent, momentumStep, clamp, clampAxis,
    decayVec, continues, bounds, envA, cfgA, containerWidth, initState,
    min_def, max_def, lt_abs, CState.mk.injEq, Vec2.mk.injEq]

lemma strayTrace6_run :
    runTrace cfgA initState strayTrace6 =
      ⟨⟨-29/25, 0⟩, false, ⟨-2/5, 0⟩, ⟨-81/250, 0⟩, [], some 2, 3⟩ := by
  rw [strayTrace6, runTrace_append, strayTrace4_run]
  norm_num [runTrace, stepEvent, momentumStep, clamp, clampAxis,
    decayVec, continues, bounds, envA, cfgA, containerWidth,
    min_def, max_def, lt_abs, CState.mk.injEq, Vec2.mk.injEq]

/-- C2 counterexample: after a finished drag-and-inertia run (no gesture
active, no pending inertia continuation), a further terminal event is not a
no-op: it schedules a new inertia frame and, because the residual velocity
-9/25 is nonzero, the offset subsequently moves from -4/5 to -29/25. -/
theorem stray_terminal_event_not_noop :
    (runTrace cfgA initState strayTrace4).isDragging = false ∧
    (runTrace cfgA initState strayTrace4).pending = [] ∧
    (runTrace cfgA initState
        (strayTrace4 ++ [(envA, .pointerUp)])).pending = [2] ∧
    (runTrace cfgA initState strayTrace6).offset ≠
      (runTrace cfgA initState strayTrace4).offset := by
  refine ⟨?_, ?_, ?_, ?_⟩
  · rw [strayTrace4_run]
  · rw [strayTrace4_run]
  · rw [runTrace_append, strayTrace4_run]; rfl
  · rw [strayTrace6_run, strayTrace4_run]
    intro h
    have hx := congrArg Vec2.x h
    norm_num at hx

/-- Both components of the velocity threshold check, as a Bool equation. -/
lemma continues_eq_false (v : Vec2) : continues v = false ↔ stoppedVec v := by
  unfold continues stoppedVec
  by_cases h : 1 / 2 < |v.x| ∨ 1 / 2 < |v.y|
  · rw [if_pos h]
    constructor
    · intro hh
      exact absurd hh (by simp)
    · intro hh
      rcases h with h | h
      · exact absurd h (not_lt.mpr hh.1)
      · exact absurd h (not_lt.mpr hh.2)
  · rw [if_neg h]
    push_neg at h
    exact ⟨fun _ => ⟨h.1, h.2⟩, fun _ => rfl⟩

lemma continues_eq_true (v : Vec2) : continues v = true ↔ ¬ stoppedVec v := by
  rw [← continues_eq_false]
  cases continues v <;> simp

lemma continues_zero : continues (⟨0, 0⟩ : Vec2) = false := by
  norm_num [continues]

/-- An inertia frame at zero velocity and an in-bounds offset changes
nothing: the clamp of offset + (0,0) is the offset itself. -/
lemma momentumStep_zero (cfg : Config) (e : Env) (o : Vec2)
    (hb : inBounds (bounds cfg e) o) :
    momentumStep cfg e o ⟨0, 0⟩ = (o, ⟨0, 0⟩) := by
  unfold momentumStep decayVec
  have ho : (⟨o.x + 0, o.y + 0⟩ : Vec2) = o := by
    cases o
    simp
  rw [ho, clamp_of_inBounds _ _ hb]
  norm_num

lemma fireOne_empty (cfg : Config) (e : Env) (s : CState)
    (hp : s.pending = []) : fireOne cfg e s = s := by
  unfold fireOne
  rw [hp]

lemma fireOne_iterate_empty (cfg : Config) (e : Env) (s : CState)
    (hp : s.pending = []) (n : ℕ) : (fireOne cfg e)^[n] s = s := by
  induction n with
  | zero => rfl
  | succ k ih => rw [Function.iterate_succ_apply, fireOne_empty cfg e s hp, ih]

/-- C2 amended: a terminal gesture event received while no gesture is active
leaves Offset, Velocity and the last pointer position unchanged at the moment
of the event, but it is not a no-op: it unconditionally schedules one fresh
inertia continuation and stores its id in the animation handle; when that
continuation fires it performs an ordinary inertia step, so the offset
becomes the clamp of offset + residual velocity and the velocity decays by
0.9 -- which can set the content moving again, as the counterexample
trace shows. -/
theorem stray_terminal_event_amended (cfg : Config) (e : Env) (s : CState)
    (hd : s.isDragging = false) :
    (stepEvent cfg e s .pointerUp).offset = s.offset ∧
    (stepEvent cfg e s .pointerUp).velocity = s.velocity ∧
    (stepEvent cfg e s .pointerUp).lastPos = s.lastPos ∧
    (stepEvent cfg e s .pointerUp).isDragging = false ∧
    (stepEvent cfg e s .pointerUp).pending = s.pending ++ [s.nextId] ∧
    (stepEvent cfg e s .pointerUp).handle = some s.nextId ∧
    (stepEvent cfg e (stepEvent cfg e s .pointerUp)
        (.frame s.nextId)).offset =
      (momentumStep cfg e s.offset s.velocity).1 ∧
    (stepEvent cfg e (stepEvent cfg e s .pointerUp)
        (.frame s.nextId)).velocity =
      (momentumStep cfg e s.offset s.velocity).2 := by
  have hmem : s.nextId ∈ s.pending ++ [s.nextId] := by simp
  refine ⟨rfl, rfl, rfl, rfl, rfl, rfl, ?_, ?_⟩
  · show (stepEvent cfg e
        { s with isDragging := false, pending := s.pending ++ [s.nextId],
                 handle := some s.nextId, nextId := s.nextId + 1 }
        (.frame s.nextId)).offset = (momentumStep cfg e s.offset s.velocity).1
    simp only [stepEvent, if_pos hmem]
    split <;> rfl
  · show (stepEvent cfg e
        { s with isDragging := false, pending := s.pending ++ [s.nextId],
                 handle := some s.nextId, nextId := s.nextId + 1 }
        (.frame s.nextId)).velocity = (momentumStep cfg e s.offset s.velocity).2
    simp only [stepEvent, if_pos hmem]
    split <;> rfl

/-- Witness for the amended C2 at the initial state. -/
theorem stray_terminal_event_amended_witness :
    initState.isDragging = false ∧
    ((stepEvent cfgA envA initState .pointerUp).offset = initState.offset ∧
    (stepEvent cfgA envA initState .pointerUp).velocity = initState.velocity ∧
    (stepEvent cfgA envA initState .pointerUp).lastPos = initState.lastPos ∧
    (stepEvent cfgA envA initState .pointerUp).isDragging = false ∧
    (stepEvent cfgA envA initState .pointerUp).pending =
      initState.pending ++ [initState.nextId] ∧
    (stepEvent cfgA envA initState .pointerUp).handle =
      some initState.nextId ∧
    (stepEvent cfgA envA (stepEvent cfgA envA initState .pointerUp)
        (.frame initState.nextId)).offset =
      (momentumStep cfgA envA initState.offset initState.velocity).1 ∧
    (stepEvent cfgA envA (stepEvent cfgA envA initState .pointerUp)
        (.frame initState.nextId)).velocity =
      (momentumStep cfgA envA initState.offset initState.velocity).2) :=
  ⟨rfl, stray_terminal_event_amended cfgA envA initState rfl⟩

/-! ## Gesture start versus pending inertia (C3) -/

/-- A drag released with two terminal events (a pointerup followed by a
pointerleave, both routed to the same handler): two inertia continuations get
scheduled and the stored handle refers only to the second. -/
def doubleUpTrace4 : List (Env × Event) :=
  [(envA, .pointerDown ⟨0, 0⟩), (envA, .pointerMove ⟨-10, 0⟩),
   (envA, .pointerUp), (envA, .pointerUp)]

/-- doubleUpTrace4 followed by the start of a new gesture. -/
def doubleUpTrace5 : List (Env × Event) :=
  doubleUpTrace4 ++ [(envA, .pointerDown ⟨0, 0⟩)]

/-- The new gesture drags by -20; then the stale first continuation fires. -/
def doubleUpTrace6 : List (Env × Event) :=
  doubleUpTrace5 ++ [(envA, .pointerMove ⟨-20, 0⟩)]

def doubleUpTrace7 : List (Env × Event) :=
  doubleUpTrace6 ++ [(envA, .frame 1)]

lemma doubleUpTrace4_run :
    runTrace cfgA initState doubleUpTrace4 =
      ⟨⟨-10, 0⟩, false, ⟨-10, 0⟩, ⟨-10, 0⟩, [1, 2], some 2, 3⟩ := by
  norm_num [doubleUpTrace4, runTrace, stepEvent, momentumStep, clamp,
    clampAxis, decayVec, continues, bounds, envA, cfgA, containerWidth,
    initState, min_def, max_def, lt_abs, CState.mk.injEq, Vec2.mk.injEq]

lemma doubleUpTrace5_run :
    runTrace cfgA initState doubleUpTrace5 =
      ⟨⟨-10, 0⟩, true, ⟨0, 0⟩, ⟨0, 0⟩, [1], some 2, 3⟩ := by
  rw [doubleUpTrace5, runTrace_append, doubleUpTrace4_run]
  norm_num [runTrace, stepEvent, List.erase_cons, CState.mk.injEq]

lemma doubleUpTrace6_run :
    runTrace cfgA initState doubleUpTrace6 =
      ⟨⟨-30, 0⟩, true, ⟨-20, 0⟩, ⟨-20, 0⟩, [1], some 2, 3⟩ := by
  rw [doubleUpTrace6, runTrace_append, doubleUpTrace5_run]
  norm_num [runTrace, stepEvent, momentumStep, clamp, clampAxis,
    decayVec, continues, bounds, envA, cfgA, containerWidth,
    min_def, max_def, lt_abs, CState.mk.injEq, Vec2.mk.injEq]

lemma doubleUpTrace7_run :
    runTrace cfgA initState doubleUpTrace7 =
      ⟨⟨-50, 0⟩, true, ⟨-20, 0⟩, ⟨-18, 0⟩, [3], some 3, 4⟩ := by
  rw [doubleUpTrace7, runTrace_append, doubleUpTrace6_run]
  norm_num [runTrace, stepEvent, momentumStep, clamp, clampAxis,
    decayVec, continues, bounds, envA, cfgA, containerWidth,
    min_def, max_def, lt_abs, CState.mk.injEq, Vec2.mk.injEq,
    List.erase_cons]

/-- C3 counterexample: with two inertia continuations pending (after a
pointerup/pointerleave pair), starting a new gesture cancels only the
continuation referenced by the stored handle; one pending continuation
remains, and when it later fires it mutates the offset in the middle of the
new gesture — the offset moves from -30 to -50 by an inertia frame while
isDragging is still true. -/
theorem gesture_start_cancel_incomplete :
    0 < (runTrace cfgA initState doubleUpTrace4).pending.length ∧
    (runTrace cfgA initState doubleUpTrace5).pending ≠ [] ∧
    (runTrace cfgA initState doubleUpTrace7).isDragging = true ∧
    (runTrace cfgA initState doubleUpTrace7).offset ≠
      (runTrace cfgA initState doubleUpTrace6).offset := by
  refine ⟨?_, ?_, ?_, ?_⟩
  · rw [doubleUpTrace4_run]; norm_num
  · rw [doubleUpTrace5_run]; norm_num
  · rw [doubleUpTrace7_run]
  · rw [doubleUpTrace7_run, doubleUpTrace6_run]
    intro h
    have hx := congrArg Vec2.x h
    norm_num at hx

/-- C3 amended: the gesture-start operation cancels the inertia continuation
referenced by AnimationHandle.  In the ordinary case — exactly one pending
continuation, the one the handle refers to — zero pending continuations
remain afterwards, the drag state is set and the velocity reset, so only the
new gesture mutates the offset; duplicate terminal events, however, can leave
an extra continuation that gesture start does not cancel. -/
theorem gesture_start_cancels_handle (cfg : Config) (e : Env) (s : CState)
    (p : Vec2) (h : ℕ) (hp : s.pending = [h]) (hh : s.handle = some h) :
    (stepEvent cfg e s (.pointerDown p)).pending = [] ∧
    (stepEvent cfg e s (.pointerDown p)).isDragging = true ∧
    (stepEvent cfg e s (.pointerDown p)).velocity = ⟨0, 0⟩ ∧
    (stepEvent cfg e s (.pointerDown p)).offset = s.offset := by
  simp only [stepEvent, hh, hp]
  refine ⟨by simp, ?_, ?_, ?_⟩ <;> trivial

/-- Witness for the amended C3 with one pending continuation, id 5. -/
theorem gesture_start_cancels_handle_witness :
    ((⟨⟨-7, 0⟩, false, ⟨0, 0⟩, ⟨3, 0⟩, [5], some 5, 6⟩ : CState).pending =
        [5] ∧
      (⟨⟨-7, 0⟩, false, ⟨0, 0⟩, ⟨3, 0⟩, [5], some 5, 6⟩ : CState).handle =
        some 5) ∧
    ((stepEvent cfgA envA ⟨⟨-7, 0⟩, false, ⟨0, 0⟩, ⟨3, 0⟩, [5], some 5, 6⟩
        (.pointerDown ⟨0, 0⟩)).pending = [] ∧
      (stepEvent cfgA envA ⟨⟨-7, 0⟩, false, ⟨0, 0⟩, ⟨3, 0⟩, [5], some 5, 6⟩
        (.pointerDown ⟨0, 0⟩)).isDragging = true ∧
      (stepEvent cfgA envA ⟨⟨-7, 0⟩, false, ⟨0, 0⟩, ⟨3, 0⟩, [5], some 5, 6⟩
        (.pointerDown ⟨0, 0⟩)).velocity = ⟨0, 0⟩ ∧
      (stepEvent cfgA envA ⟨⟨-7, 0⟩, false, ⟨0, 0⟩, ⟨3, 0⟩, [5], some 5, 6⟩
        (.pointerDown ⟨0, 0⟩)).offset =
        (⟨⟨-7, 0⟩, false, ⟨0, 0⟩, ⟨3, 0⟩, [5], some 5, 6⟩ : CState).offset) :=
  ⟨⟨rfl, rfl⟩,
   gesture_start_cancels_handle cfgA envA
     ⟨⟨-7, 0⟩, false, ⟨0, 0⟩, ⟨3, 0⟩, [5], some 5, 6⟩ ⟨0, 0⟩ 5 rfl rfl⟩

/-! ## Zero-velocity inertia (C9) -/

lemma inBounds_origin : inBounds (bounds cfgA envA) (⟨0, 0⟩ : Vec2) := by
  unfold cfgA envA
  rw [bounds_eval_500]
  exact ⟨by norm_num, le_refl 0, le_refl 0, le_refl 0⟩

/-- C9: starting inertia with velocity (0,0) produces no motion.  With one
scheduled continuation and an in-bounds offset, the single frame that fires
leaves the offset unchanged, and the run terminates immediately: no further
continuation is scheduled and every later frame tick leaves the whole state
fixed. -/
theorem zero_velocity_inertia_noop (cfg : Config) (e : Env) (s : CState)
    (h : ℕ) (hp : s.pending = [h]) (hv : s.velocity = ⟨0, 0⟩)
    (hb : inBounds (bounds cfg e) s.offset) :
    (fireOne cfg e s).offset = s.offset ∧
    (fireOne cfg e s).pending = [] ∧
    ∀ n : ℕ, (fireOne cfg e)^[n] (fireOne cfg e s) = fireOne cfg e s := by
  have hm : h ∈ s.pending := by rw [hp]; exact List.mem_singleton.mpr rfl
  have hfe : fireOne cfg e s = stepEvent cfg e s (.frame h) := by
    unfold fireOne
    rw [hp]
  have hs : stepEvent cfg e s (.frame h) =
      { s with offset := s.offset, velocity := ⟨0, 0⟩,
               pending := s.pending.erase h } := by
    simp only [stepEvent, if_pos hm, hv,
      momentumStep_zero cfg e s.offset hb, continues_zero,
      Bool.false_eq_true, if_false]
  have hpe : (fireOne cfg e s).pending = [] := by
    rw [hfe, hs, hp]
    simp
  refine ⟨by rw [hfe, hs], hpe, fun n => fireOne_iterate_empty cfg e _ hpe n⟩

/-- Witness for C9: one pending frame, zero velocity, offset (0,0). -/
theorem zero_velocity_inertia_noop_witness :
    ((⟨⟨0, 0⟩, false, ⟨0, 0⟩, ⟨0, 0⟩, [1], some 1, 2⟩ : CState).pending =
        [1] ∧
      (⟨⟨0, 0⟩, false, ⟨0, 0⟩, ⟨0, 0⟩, [1], some 1, 2⟩ : CState).velocity =
        ⟨0, 0⟩ ∧
      inBounds (bounds cfgA envA)
        (⟨⟨0, 0⟩, false, ⟨0, 0⟩, ⟨0, 0⟩, [1], some 1, 2⟩ : CState).offset) ∧
    ((fireOne cfgA envA ⟨⟨0, 0⟩, false, ⟨0, 0⟩, ⟨0, 0⟩, [1], some 1, 2⟩).offset =
        (⟨⟨0, 0⟩, false, ⟨0, 0⟩, ⟨0, 0⟩, [1], some 1, 2⟩ : CState).offset ∧
      (fireOne cfgA envA ⟨⟨0, 0⟩, false, ⟨0, 0⟩, ⟨0, 0⟩, [1], some 1, 2⟩).pending =
        [] ∧
      ∀ n : ℕ, (fireOne cfgA envA)^[n]
          (fireOne cfgA envA ⟨⟨0, 0⟩, false, ⟨0, 0⟩, ⟨0, 0⟩, [1], some 1, 2⟩) =
        fireOne cfgA envA ⟨⟨0, 0⟩, false, ⟨0, 0⟩, ⟨0, 0⟩, [1], some 1, 2⟩) :=
  ⟨⟨rfl, rfl, inBounds_origin⟩,
   zero_velocity_inertia_noop cfgA envA
     ⟨⟨0, 0⟩, false, ⟨0, 0⟩, ⟨0, 0⟩, [1], some 1, 2⟩ 1 rfl rfl
     inBounds_origin⟩

/-! ## Velocity decay convergence and simulator termination (C4) -/

/-- Repeated 0.9 decay eventually brings any component to magnitude 1/2. -/
lemma decay_reaches (v0 : ℚ) : ∃ n : ℕ, |v0 * (9 / 10) ^ n| ≤ 1 / 2 := by
  rcases le_or_lt |v0| (1 / 2) with h | h
  · exact ⟨0, by simpa using h⟩
  · have hv : (0 : ℚ) < |v0| := by linarith
    obtain ⟨n, hn⟩ := exists_pow_lt_of_lt_one
      (show (0 : ℚ) < 1 / 2 / |v0| by positivity)
      (show (9 / 10 : ℚ) < 1 by norm_num)
    refine ⟨n, ?_⟩
    have hpow : (0 : ℚ) ≤ (9 / 10 : ℚ) ^ n := by positivity
    rw [abs_mul, abs_of_nonneg hpow]
    have hlt : |v0| * (9 / 10 : ℚ) ^ n < |v0| * (1 / 2 / |v0|) :=
      mul_lt_mul_of_pos_left hn hv
    have heq : |v0| * (1 / 2 / |v0|) = 1 / 2 := by
      field_simp
      ring
    linarith

/-- The number of decay steps after which the component first satisfies the
stop threshold (the least n with abs of v0 * 0.9 to the n at most 1/2). -/
def stopSteps (v0 : ℚ) : ℕ := Nat.find (decay_reaches v0)

lemma log_ratio_pos (v0 : ℚ) (hv : 1 / 2 < |v0|) :
    0 < Real.log (1 / 2 / |(v0 : ℝ)|) / Real.log (9 / 10) := by
  have hvR : (1 : ℝ) / 2 < |(v0 : ℝ)| := by
    have h1 : ((1 / 2 : ℚ) : ℝ) < ((|v0| : ℚ) : ℝ) := Rat.cast_lt.mpr hv
    rw [Rat.cast_abs] at h1
    have h2 : ((1 / 2 : ℚ) : ℝ) = (1 : ℝ) / 2 := by norm_num
    rw [h2] at h1
    exact h1
  have hv0 : (0 : ℝ) < |(v0 : ℝ)| := by linarith
  have hq : (0 : ℝ) < 1 / 2 / |(v0 : ℝ)| := by positivity
  have hq1 : (1 : ℝ) / 2 / |(v0 : ℝ)| < 1 := by
    rw [div_lt_one hv0]
    exact hvR
  have hlogq : Real.log (1 / 2 / |(v0 : ℝ)|) < 0 := Real.log_neg hq hq1
  have hlog9 : Real.log ((9 : ℝ) / 10) < 0 := Real.log_neg (by norm_num) (by norm_num)
  exact div_pos_of_neg_of_neg hlogq hlog9

/-- Decaying for ceil(log((1/2)/abs v0) / log(9/10)) steps suffices. -/
lemma ceil_bound_reaches (v0 : ℚ) (hv : 1 / 2 < |v0|) :
    |v0 * (9 / 10 : ℚ) ^
        (⌈Real.log (1 / 2 / |(v0 : ℝ)|) / Real.log (9 / 10)⌉.toNat)| ≤
      1 / 2 := by
  have hvR : (1 : ℝ) / 2 < |(v0 : ℝ)| := by
    have h1 : ((1 / 2 : ℚ) : ℝ) < ((|v0| : ℚ) : ℝ) := Rat.cast_lt.mpr hv
    rw [Rat.cast_abs] at h1
    have h2 : ((1 / 2 : ℚ) : ℝ) = (1 : ℝ) / 2 := by norm_num
    rw [h2] at h1
    exact h1
  have hv0 : (0 : ℝ) < |(v0 : ℝ)| := by linarith
  have hq : (0 : ℝ) < 1 / 2 / |(v0 : ℝ)| := by positivity
  have hq1 : (1 : ℝ) / 2 / |(v0 : ℝ)| < 1 := by
    rw [div_lt_one hv0]
    exact hvR
  have hlogq : Real.log (1 / 2 / |(v0 : ℝ)|) < 0 := Real.log_neg hq hq1
  have hlog9 : Real.log ((9 : ℝ) / 10) < 0 := Real.log_neg (by norm_num) (by norm_num)
  set L : ℝ := Real.log (1 / 2 / |(v0 : ℝ)|) / Real.log (9 / 10) with hL
  set N : ℕ := (⌈L⌉).toNat with hN
  have hLpos : 0 < L := log_ratio_pos v0 hv
  have hNL : L ≤ (N : ℝ) := by
    have h1 : L ≤ (⌈L⌉ : ℝ) := Int.le_ceil L
    have h2 : (⌈L⌉ : ℤ) ≤ ((⌈L⌉).toNat : ℤ) := Int.self_le_toNat _
    have h3 : ((⌈L⌉ : ℤ) : ℝ) ≤ (((⌈L⌉).toNat : ℤ) : ℝ) := by exact_mod_cast h2
    rw [hN]
    push_cast at h3 ⊢
    linarith
  have hpow : ((9 : ℝ) / 10) ^ N ≤ 1 / 2 / |(v0 : ℝ)| := by
    have he : ((9 : ℝ) / 10) ^ N =
        Real.exp ((N : ℝ) * Real.log ((9 : ℝ) / 10)) := by
      rw [Real.exp_nat_mul, Real.exp_log (by norm_num : (0 : ℝ) < 9 / 10)]
    rw [he]
    have hm : (N : ℝ) * Real.log ((9 : ℝ) / 10) ≤
        L * Real.log ((9 : ℝ) / 10) :=
      mul_le_mul_of_nonpos_right hNL (le_of_lt hlog9)
    have hLlog : L * Real.log ((9 : ℝ) / 10) =
        Real.log (1 / 2 / |(v0 : ℝ)|) := by
      rw [hL]
      field_simp
    calc Real.exp ((N : ℝ) * Real.log ((9 : ℝ) / 10))
        ≤ Real.exp (L * Real.log ((9 : ℝ) / 10)) := Real.exp_le_exp.mpr hm
      _ = 1 / 2 / |(v0 : ℝ)| := by rw [hLlog, Real.exp_log hq]
  have hR : |(v0 : ℝ)| * ((9 : ℝ) / 10) ^ N ≤ 1 / 2 := by
    have hmul := mul_le_mul_of_nonneg_left hpow (le_of_lt hv0)
    have heq : |(v0 : ℝ)| * (1 / 2 / |(v0 : ℝ)|) = 1 / 2 := by
      field_simp
      ring
    linarith
  have habs : |v0 * (9 / 10 : ℚ) ^ N| = |v0| * (9 / 10 : ℚ) ^ N := by
    rw [abs_mul, abs_of_nonneg (by positivity : (0 : ℚ) ≤ (9 / 10 : ℚ) ^ N)]
  rw [habs]
  have hfin : ((|v0| * (9 / 10) ^ N : ℚ) : ℝ) ≤ ((1 / 2 : ℚ) : ℝ) := by
    calc ((|v0| * (9 / 10) ^ N : ℚ) : ℝ)
        = |(v0 : ℝ)| * ((9 : ℝ) / 10) ^ N := by push_cast; norm_num
      _ ≤ (1 : ℝ) / 2 := hR
      _ = ((1 / 2 : ℚ) : ℝ) := by norm_num
  exact Rat.cast_le.mp hfin

lemma decayVec_iterate (n : ℕ) (v : Vec2) :
    decayVec^[n] v = ⟨v.x * (9 / 10) ^ n, v.y * (9 / 10) ^ n⟩ := by
  induction n generalizing v with
  | zero => cases v; simp
  | succ k ih =>
      rw [Function.iterate_succ_apply, ih]
      unfold decayVec
      have hx : v.x * (9 / 10) * ((9 : ℚ) / 10) ^ k = v.x * (9 / 10) ^ (k + 1) := by
        ring
      have hy : v.y * (9 / 10) * ((9 : ℚ) / 10) ^ k = v.y * (9 / 10) ^ (k + 1) := by
        ring
      rw [hx, hy]

/-- Once a component is below the threshold it stays below it. -/
lemma decay_le_of_le (v0 : ℚ) (n m : ℕ) (hnm : n ≤ m)
    (h : |v0 * (9 / 10) ^ n| ≤ 1 / 2) : |v0 * (9 / 10) ^ m| ≤ 1 / 2 := by
  rw [abs_mul, abs_of_nonneg (by positivity : (0 : ℚ) ≤ (9 / 10 : ℚ) ^ n)] at h
  rw [abs_mul, abs_of_nonneg (by positivity : (0 : ℚ) ≤ (9 / 10 : ℚ) ^ m)]
  have h3 : (9 / 10 : ℚ) ^ m ≤ (9 / 10 : ℚ) ^ n :=
    pow_le_pow_of_le_one (by norm_num) (by norm_num) hnm
  have h4 : |v0| * (9 / 10 : ℚ) ^ m ≤ |v0| * (9 / 10 : ℚ) ^ n :=
    mul_le_mul_of_nonneg_left h3 (abs_nonneg v0)
  linarith

lemma stoppedVec_decay_exists (v : Vec2) :
    ∃ n : ℕ, stoppedVec (decayVec^[n + 1] v) := by
  obtain ⟨n1, h1⟩ := decay_reaches v.x
  obtain ⟨n2, h2⟩ := decay_reaches v.y
  refine ⟨max n1 n2, ?_⟩
  rw [decayVec_iterate]
  exact ⟨decay_le_of_le v.x n1 _ (le_trans (le_max_left n1 n2) (Nat.le_succ _)) h1,
    decay_le_of_le v.y n2 _ (le_trans (le_max_right n1 n2) (Nat.le_succ _)) h2⟩

/-- Firing frames from a single-pending state empties the schedule once the
decayed velocity is below the threshold. -/
lemma fire_terminates (cfg : Config) (e : Env) :
    ∀ (n : ℕ) (s : CState) (h : ℕ), s.pending = [h] →
      stoppedVec (decayVec^[n + 1] s.velocity) →
      ((fireOne cfg e)^[n + 1] s).pending = [] := by
  intro n
  induction n with
  | zero =>
      intro s h hp hst
      have hm : h ∈ s.pending := by
        rw [hp]
        exact List.mem_singleton.mpr rfl
      have hc : continues (decayVec s.velocity) = false :=
        (continues_eq_false _).mpr (by simpa using hst)
      rw [Function.iterate_one]
      unfold fireOne
      rw [hp]
      simp only [stepEvent, if_pos hm, momentumStep, hc, Bool.false_eq_true,
        if_false]
      rw [hp]
      simp
  | succ k ih =>
      intro s h hp hst
      have hm : h ∈ s.pending := by
        rw [hp]
        exact List.mem_singleton.mpr rfl
      by_cases hc : continues (decayVec s.velocity) = true
      · have hfs : fireOne cfg e s =
            { s with offset := (momentumStep cfg e s.offset s.velocity).1,
                     velocity := decayVec s.velocity,
                     pending := [s.nextId], handle := some s.nextId,
                     nextId := s.nextId + 1 } := by
          unfold fireOne
          rw [hp]
          simp only [stepEvent, if_pos hm, momentumStep, hc, if_true]
          rw [hp]
          simp
        rw [Function.iterate_succ_apply, hfs]
        refine ih _ s.nextId rfl ?_
        show stoppedVec (decayVec^[k + 1] (decayVec s.velocity))
        rw [← Function.iterate_succ_apply]
        exact hst
      · have hcf : continues (decayVec s.velocity) = false := by
          cases hcc : continues (decayVec s.velocity)
          · rfl
          · exact absurd hcc hc
        have hfs : (fireOne cfg e s).pending = [] := by
          unfold fireOne
          rw [hp]
          simp only [stepEvent, if_pos hm, momentumStep, hcf,
            Bool.false_eq_true, if_false]
          rw [hp]
          simp
        rw [Function.iterate_succ_apply,
          fireOne_iterate_empty cfg e (fireOne cfg e s) hfs (k + 1)]
        exact hfs

/-- C4: for every initial velocity component above the threshold, stopSteps
is the first decay count that brings it to magnitude at most 1/2; it is at
most ceil(log((1/2)/abs v0) / log(9/10)); and the inertia simulator as a
whole terminates: from any state with one pending continuation, finitely
many frame ticks leave the schedule empty. -/
theorem velocity_decay_converges (v0 : ℚ) (hv : 1 / 2 < |v0|) :
    |v0 * (9 / 10) ^ stopSteps v0| ≤ 1 / 2 ∧
    (∀ m : ℕ, m < stopSteps v0 → 1 / 2 < |v0 * (9 / 10) ^ m|) ∧
    (stopSteps v0 : ℤ) ≤
      ⌈Real.log (1 / 2 / |(v0 : ℝ)|) / Real.log (9 / 10)⌉ ∧
    (∀ (cfg : Config) (e : Env) (s : CState) (h : ℕ), s.pending = [h] →
      ∃ n : ℕ, ((fireOne cfg e)^[n] s).pending = []) := by
  refine ⟨Nat.find_spec (decay_reaches v0), fun m hm => ?_, ?_, ?_⟩
  · exact lt_of_not_le (Nat.find_min (decay_reaches v0) hm)
  · have hfind : stopSteps v0 ≤
        (⌈Real.log (1 / 2 / |(v0 : ℝ)|) / Real.log (9 / 10)⌉).toNat :=
      Nat.find_min' (decay_reaches v0) (ceil_bound_reaches v0 hv)
    have hpos : 0 < ⌈Real.log (1 / 2 / |(v0 : ℝ)|) / Real.log (9 / 10)⌉ :=
      Int.ceil_pos.mpr (log_ratio_pos v0 hv)
    have htn : ((⌈Real.log (1 / 2 / |(v0 : ℝ)|) / Real.log (9 / 10)⌉.toNat : ℤ)) =
        ⌈Real.log (1 / 2 / |(v0 : ℝ)|) / Real.log (9 / 10)⌉ :=
      Int.toNat_of_nonneg (le_of_lt hpos)
    rw [← htn]
    exact_mod_cast hfind
  · intro cfg e s h hp
    obtain ⟨n, hn⟩ := stoppedVec_decay_exists s.velocity
    exact ⟨n + 1, fire_terminates cfg e n s h hp hn⟩

/-- Witness for C4 at v0 = 10, the spec's own example. -/
theorem velocity_decay_converges_witness :
    (1 / 2 : ℚ) < |(10 : ℚ)| ∧
    (|(10 : ℚ) * (9 / 10) ^ stopSteps 10| ≤ 1 / 2 ∧
    (∀ m : ℕ, m < stopSteps 10 → 1 / 2 < |(10 : ℚ) * (9 / 10) ^ m|) ∧
    (stopSteps 10 : ℤ) ≤
      ⌈Real.log (1 / 2 / |((10 : ℚ) : ℝ)|) / Real.log (9 / 10)⌉ ∧
    (∀ (cfg : Config) (e : Env) (s : CState) (h : ℕ), s.pending = [h] →
      ∃ n : ℕ, ((fireOne cfg e)^[n] s).pending = [])) :=
  ⟨by norm_num, velocity_decay_converges 10 (by norm_num)⟩

/-! ## The inertia-settles scenario (C7) -/

/-- The total displacement accumulated after k unclamped inertia steps per
unit of initial velocity: 1 + 0.9 + ... + 0.9^(k-1) = (1 - 0.9^k)/(1 - 0.9),
written with the division already carried out. -/
def geomSum (k : ℕ) : ℚ := 10 * (1 - (9 / 10) ^ k)

lemma geomSum_succ (k : ℕ) : geomSum (k + 1) = geomSum k + (9 / 10) ^ k := by
  unfold geomSum
  ring

lemma geomSum_nonneg (k : ℕ) : 0 ≤ geomSum k := by
  unfold geomSum
  have h : (9 / 10 : ℚ) ^ k ≤ 1 :=
    pow_le_one₀ (by norm_num) (by norm_num)
  linarith

lemma geomSum_le_ten (k : ℕ) : geomSum k ≤ 10 := by
  unfold geomSum
  have h : (0 : ℚ) ≤ (9 / 10 : ℚ) ^ k := by positivity
  linarith

/-- As long as every intermediate position is in bounds, n inertia frames
move the offset by velocity times the geometric sum and scale the velocity
by 0.9^n. -/
lemma momentum_iterate_closed (cfg : Config) (e : Env) (o0 v0 : Vec2) :
    ∀ n : ℕ, (∀ k : ℕ, k ≤ n → inBounds (bounds cfg e)
        ⟨o0.x + v0.x * geomSum k, o0.y + v0.y * geomSum k⟩) →
      (fun p : Vec2 × Vec2 => momentumStep cfg e p.1 p.2)^[n] (o0, v0) =
        (⟨o0.x + v0.x * geomSum n, o0.y + v0.y * geomSum n⟩,
         ⟨v0.x * (9 / 10) ^ n, v0.y * (9 / 10) ^ n⟩) := by
  intro n
  induction n with
  | zero =>
      intro _
      cases o0
      cases v0
      norm_num [geomSum]
  | succ k ih =>
      intro hin
      rw [Function.iterate_succ_apply',
        ih (fun j hj => hin j (le_trans hj (Nat.le_succ k)))]
      unfold momentumStep decayVec
      dsimp only
      have hx : o0.x + v0.x * geomSum k + v0.x * (9 / 10) ^ k =
          o0.x + v0.x * geomSum (k + 1) := by
        rw [geomSum_succ]
        ring
      have hy : o0.y + v0.y * geomSum k + v0.y * (9 / 10) ^ k =
          o0.y + v0.y * geomSum (k + 1) := by
        rw [geomSum_succ]
        ring
      have hcl : clamp (bounds cfg e)
          ⟨o0.x + v0.x * geomSum k + v0.x * (9 / 10) ^ k,
           o0.y + v0.y * geomSum k + v0.y * (9 / 10) ^ k⟩ =
          ⟨o0.x + v0.x * geomSum (k + 1), o0.y + v0.y * geomSum (k + 1)⟩ := by
        rw [hx, hy]
        exact clamp_of_inBounds _ _ (hin (k + 1) (le_refl _))
      rw [hcl]
      have hvx : v0.x * (9 / 10) ^ k * (9 / 10) = v0.x * (9 / 10) ^ (k + 1) := by
        ring
      have hvy : v0.y * (9 / 10) ^ k * (9 / 10) = v0.y * (9 / 10) ^ (k + 1) := by
        ring
      rw [hvx, hvy]

/-- The layout constants computed in Canvas.tsx: ten cards of width 200 with
gap 20 and padding 32 give total width 2212; the tallest card is 400. -/
lemma repoConfig_eval : repoConfig = ⟨2212, 400⟩ := by
  unfold repoConfig totalWidth tallestCard steps cardWidth gapWidth paddingX
  norm_num [max_def]

lemma bounds_eval_repo : bounds repoConfig ⟨some 500, 500, 1000⟩ = ⟨-1712, 0⟩ := by
  rw [repoConfig_eval]
  unfold bounds containerWidth
  norm_num [min_def]

lemma inBounds_c7 (k : ℕ) :
    inBounds (bounds repoConfig ⟨some 500, 500, 1000⟩)
      ⟨(-200 : ℚ) + 10 * geomSum k, 0 + 0 * geomSum k⟩ := by
  rw [bounds_eval_repo]
  have h0 := geomSum_nonneg k
  have h10 := geomSum_le_ten k
  unfold inBounds
  dsimp only
  refine ⟨by linarith, by linarith, by linarith, by linarith⟩

/-- C7: released with velocity (10, 0) in bounds wide enough that no clamping
occurs, the simulator runs exactly 29 frames — 29 is the first decay count
bringing 10 * 0.9^n to magnitude at most 0.5, the velocity after 28 frames
still exceeds the threshold and the velocity after 29 does not — and the
offset has moved by the geometric sum 10 * (1 - 0.9^29) / (1 - 0.9). -/
theorem inertia_settles_scenario :
    stopSteps 10 = 29 ∧
    ((fun p : Vec2 × Vec2 =>
        momentumStep repoConfig ⟨some 500, 500, 1000⟩ p.1 p.2)^[29]
        (⟨-200, 0⟩, ⟨10, 0⟩)).1.x - (-200 : ℚ) =
      10 * (1 - (9 / 10) ^ 29) / (1 - 9 / 10) ∧
    ¬ stoppedVec ((fun p : Vec2 × Vec2 =>
        momentumStep repoConfig ⟨some 500, 500, 1000⟩ p.1 p.2)^[28]
        (⟨-200, 0⟩, ⟨10, 0⟩)).2 ∧
    stoppedVec ((fun p : Vec2 × Vec2 =>
        momentumStep repoConfig ⟨some 500, 500, 1000⟩ p.1 p.2)^[29]
        (⟨-200, 0⟩, ⟨10, 0⟩)).2 := by
  have hrun29 := momentum_iterate_closed repoConfig ⟨some 500, 500, 1000⟩
    ⟨-200, 0⟩ ⟨10, 0⟩ 29 (fun k _ => inBounds_c7 k)
  have hrun28 := momentum_iterate_closed repoConfig ⟨some 500, 500, 1000⟩
    ⟨-200, 0⟩ ⟨10, 0⟩ 28 (fun k _ => inBounds_c7 k)
  refine ⟨?_, ?_, ?_, ?_⟩
  · rw [stopSteps, Nat.find_eq_iff]
    constructor
    · show |(10 : ℚ) * (9 / 10) ^ 29| ≤ 1 / 2
      rw [abs_of_nonneg (by positivity)]
      norm_num
    · intro m hm hP
      have h28 : |(10 : ℚ) * (9 / 10) ^ 28| ≤ 1 / 2 :=
        decay_le_of_le 10 m 28 (by omega) hP
      rw [abs_of_nonneg (by positivity)] at h28
      norm_num at h28
  · rw [hrun29]
    dsimp only
    unfold geomSum
    ring
  · rw [hrun28]
    intro hst
    have h1 := hst.1
    dsimp only at h1
    rw [abs_of_nonneg (by positivity)] at h1
    norm_num at h1
  · rw [hrun29]
    constructor
    · show |(10 : ℚ) * (9 / 10) ^ 29| ≤ 1 / 2
      rw [abs_of_nonneg (by positivity)]
      norm_num
    · show |(0 : ℚ) * (9 / 10) ^ 29| ≤ 1 / 2
      norm_num

/-! ## The clamped-drag scenario (C8) -/

/-- The move events of a drag that displaces the pointer horizontally by the
successive amounts in ds, starting from pointer position p. -/
def movesTrace (e : Env) : Vec2 → List ℚ → List (Env × Event)
  | _, [] => []
  | p, d :: ds =>
      (e, .pointerMove ⟨p.x + d, p.y⟩) :: movesTrace e ⟨p.x + d, p.y⟩ ds

lemma sum_nonpos_of_all (ds : List ℚ) (h : ∀ d ∈ ds, d ≤ 0) : ds.sum ≤ 0 := by
  induction ds with
  | nil => simp
  | cons a l ih =>
      rw [List.sum_cons]
      have ha := h a (List.mem_cons_self a l)
      have hl := ih (fun d hd => h d (List.mem_cons_of_mem a hd))
      linarith

lemma max_add_shift (m a s : ℚ) (hs : s ≤ 0) :
    max m (max m a + s) = max m (a + s) := by
  rcases le_total m a with h | h
  · rw [max_eq_right h]
  · rw [max_eq_left h, max_eq_left (by linarith : m + s ≤ m),
      max_eq_left (by linarith : a + s ≤ m)]

/-- During a drag consisting only of leftward, horizontal moves, the offset
x saturates at the bound: it ends at max(minX, start + total displacement),
and the offset y stays pinned at 0 when minY = 0. -/
lemma drag_moves_fold (cfg : Config) (e : Env)
    (hmY : (bounds cfg e).minY = 0) :
    ∀ (ds : List ℚ) (s : CState), (∀ d ∈ ds, d ≤ 0) →
      s.isDragging = true → s.offset.y = 0 →
      (bounds cfg e).minX ≤ s.offset.x → s.offset.x ≤ 0 →
      (runTrace cfg s (movesTrace e s.lastPos ds)).offset =
        ⟨max (bounds cfg e).minX (s.offset.x + ds.sum), 0⟩ := by
  intro ds
  induction ds with
  | nil =>
      intro s _ _ hy hxl _
      show s.offset = _
      have h1 : max (bounds cfg e).minX (s.offset.x + ([] : List ℚ).sum) =
          s.offset.x := by
        rw [List.sum_nil, add_zero]
        exact max_eq_right hxl
      rw [h1, ← hy]
  | cons d ds ih =>
      intro s hneg hdrag hy hxl hxu
      have hd0 : d ≤ 0 := hneg d (List.mem_cons_self d ds)
      have hxd : s.offset.x + d ≤ 0 := by linarith
      have hstep : stepEvent cfg e s
          (.pointerMove ⟨s.lastPos.x + d, s.lastPos.y⟩) =
          { s with offset := ⟨max (bounds cfg e).minX (s.offset.x + d), 0⟩,
                   velocity := ⟨(⟨s.lastPos.x + d, s.lastPos.y⟩ : Vec2).x -
                       s.lastPos.x,
                     (⟨s.lastPos.x + d, s.lastPos.y⟩ : Vec2).y - s.lastPos.y⟩,
                   lastPos := ⟨s.lastPos.x + d, s.lastPos.y⟩ } := by
        simp only [stepEvent, hdrag, if_true]
        unfold clamp clampAxis
        dsimp only
        have hdx : s.offset.x + (s.lastPos.x + d - s.lastPos.x) =
            s.offset.x + d := by ring
        have hdy : s.offset.y + (s.lastPos.y - s.lastPos.y) = s.offset.y := by
          ring
        rw [hdx, hdy, min_eq_right hxd, hy, min_eq_right (le_refl (0 : ℚ)),
          hmY, max_self]
      show (runTrace cfg _ (_ :: movesTrace e _ ds)).offset = _
      simp only [runTrace]
      rw [hstep]
      have hres := ih
        { s with offset := ⟨max (bounds cfg e).minX (s.offset.x + d), 0⟩,
                 velocity := ⟨(⟨s.lastPos.x + d, s.lastPos.y⟩ : Vec2).x -
                     s.lastPos.x,
                   (⟨s.lastPos.x + d, s.lastPos.y⟩ : Vec2).y - s.lastPos.y⟩,
                 lastPos := ⟨s.lastPos.x + d, s.lastPos.y⟩ }
        (fun j hj => hneg j (List.mem_cons_of_mem d hj)) hdrag rfl
        (le_max_left _ _)
        (max_le (bounds_minX_nonpos cfg e) hxd)
      rw [hres]
      have hshift : max (bounds cfg e).minX
          (max (bounds cfg e).minX (s.offset.x + d) + ds.sum) =
          max (bounds cfg e).minX (s.offset.x + (d :: ds).sum) := by
        rw [max_add_shift _ _ _
          (sum_nonpos_of_all ds (fun j hj => hneg j (List.mem_cons_of_mem d hj))),
          List.sum_cons]
        ring_nf
      rw [hshift]

/-- C8: with viewport 500 x 500, total content width 2000, tallest card 150
and vertical padding 32, the bounds are minX = -1500 and minY = 0, and any
drag gesture made of leftward moves totalling 3000 px leaves the offset
saturated at exactly (-1500, 0). -/
theorem clamped_drag_scenario (ds : List ℚ) (hneg : ∀ d ∈ ds, d ≤ 0)
    (hsum : ds.sum = -3000) :
    (bounds cfgA envA).minX = -1500 ∧ (bounds cfgA envA).minY = 0 ∧
    (runTrace cfgA initState
        ((envA, .pointerDown ⟨0, 0⟩) :: movesTrace envA ⟨0, 0⟩ ds)).offset =
      ⟨-1500, 0⟩ := by
  have hb : bounds cfgA envA = ⟨-1500, 0⟩ := by
    unfold cfgA envA
    exact bounds_eval_500
  refine ⟨by rw [hb], by rw [hb], ?_⟩
  simp only [runTrace]
  have hs1 : stepEvent cfgA envA initState (.pointerDown ⟨0, 0⟩) =
      ⟨⟨0, 0⟩, true, ⟨0, 0⟩, ⟨0, 0⟩, [], none, 1⟩ := rfl
  rw [hs1]
  have hfold := drag_moves_fold cfgA envA (by rw [hb]) ds
    ⟨⟨0, 0⟩, true, ⟨0, 0⟩, ⟨0, 0⟩, [], none, 1⟩ hneg rfl rfl
    (by rw [hb]; norm_num) (le_refl 0)
  rw [hfold, hsum, hb]
  norm_num [max_def]

/-- Witness for C8 with the single move [-3000]. -/
theorem clamped_drag_scenario_witness :
    ((∀ d ∈ ([-3000] : List ℚ), d ≤ 0) ∧ ([-3000] : List ℚ).sum = -3000) ∧
    ((bounds cfgA envA).minX = -1500 ∧ (bounds cfgA envA).minY = 0 ∧
    (runTrace cfgA initState
        ((envA, .pointerDown ⟨0, 0⟩) ::
          movesTrace envA ⟨0, 0⟩ [-3000])).offset = ⟨-1500, 0⟩) :=
  ⟨⟨by norm_num, by norm_num⟩,
   clamped_drag_scenario [-3000] (by norm_num) (by norm_num)⟩

/-! ## Clamped move steps: bounded, sign-preserving (C10) -/

lemma clampAxis_move_le (m x d : ℚ) (hm : m ≤ 0) (h1 : m ≤ x) (h2 : x ≤ 0) :
    |clampAxis m (x + d) - x| ≤ |d| := by
  unfold clampAxis
  rcases le_total (x + d) 0 with hxd | hxd
  · rw [min_eq_right hxd]
    rcases le_total m (x + d) with hm2 | hm2
    · rw [max_eq_right hm2]
      have hsub : x + d - x = d := by ring
      rw [hsub]
    · rw [max_eq_left hm2]
      have hd0 : d ≤ 0 := by linarith
      rw [abs_of_nonpos (by linarith : m - x ≤ 0), abs_of_nonpos hd0]
      linarith
  · rw [min_eq_left hxd, max_eq_right hm]
    have hd0 : 0 ≤ d := by linarith
    rw [abs_of_nonneg (by linarith : (0 : ℚ) ≤ 0 - x), abs_of_nonneg hd0]
    linarith

lemma clampAxis_move_sign (m x d : ℚ) (hm : m ≤ 0) (h1 : m ≤ x) (h2 : x ≤ 0) :
    0 ≤ (clampAxis m (x + d) - x) * d := by
  unfold clampAxis
  rcases le_total (x + d) 0 with hxd | hxd
  · rw [min_eq_right hxd]
    rcases le_total m (x + d) with hm2 | hm2
    · rw [max_eq_right hm2]
      have hsub : x + d - x = d := by ring
      rw [hsub]
      exact mul_self_nonneg d
    · rw [max_eq_left hm2]
      have hd0 : d ≤ 0 := by linarith
      nlinarith
  · rw [min_eq_left hxd, max_eq_right hm]
    have hd0 : 0 ≤ d := by linarith
    nlinarith

lemma clampAxis_pinned (m x d : ℚ) (hm : m ≤ 0) (hx : x = m) (hd : d ≤ 0) :
    clampAxis m (x + d) = x := by
  unfold clampAxis
  rw [hx, min_eq_right (by linarith : m + d ≤ 0),
    max_eq_left (by linarith : m + d ≤ m)]

/-- C10: a move during an active drag with raw displacement (dx, dy) changes
the offset by at most the raw displacement on each axis, with the same sign
or not at all — clamping only shortens a step, never reverses it or
overshoots — while the velocity is set to the full raw (dx, dy) regardless;
in particular, on an axis pinned at its bound an inward-free drag leaves the
offset fixed while the velocity still records the full displacement. -/
theorem move_step_bounded (cfg : Config) (e : Env) (s : CState) (p : Vec2)
    (hdrag : s.isDragging = true) (hb : inBounds (bounds cfg e) s.offset) :
    |(stepEvent cfg e s (.pointerMove p)).offset.x - s.offset.x| ≤
      |p.x - s.lastPos.x| ∧
    0 ≤ ((stepEvent cfg e s (.pointerMove p)).offset.x - s.offset.x) *
      (p.x - s.lastPos.x) ∧
    |(stepEvent cfg e s (.pointerMove p)).offset.y - s.offset.y| ≤
      |p.y - s.lastPos.y| ∧
    0 ≤ ((stepEvent cfg e s (.pointerMove p)).offset.y - s.offset.y) *
      (p.y - s.lastPos.y) ∧
    (stepEvent cfg e s (.pointerMove p)).velocity =
      ⟨p.x - s.lastPos.x, p.y - s.lastPos.y⟩ ∧
    (s.offset.x = (bounds cfg e).minX → p.x - s.lastPos.x ≤ 0 →
      (stepEvent cfg e s (.pointerMove p)).offset.x = s.offset.x) := by
  obtain ⟨hb1, hb2, hb3, hb4⟩ := hb
  have hofs : (stepEvent cfg e s (.pointerMove p)).offset =
      clamp (bounds cfg e)
        ⟨s.offset.x + (p.x - s.lastPos.x), s.offset.y + (p.y - s.lastPos.y)⟩ := by
    simp only [stepEvent, hdrag, if_true]
  have hvel : (stepEvent cfg e s (.pointerMove p)).velocity =
      ⟨p.x - s.lastPos.x, p.y - s.lastPos.y⟩ := by
    simp only [stepEvent, hdrag, if_true]
  rw [hofs, hvel]
  unfold clamp
  dsimp only
  exact ⟨clampAxis_move_le _ _ _ (bounds_minX_nonpos cfg e) hb1 hb2,
    clampAxis_move_sign _ _ _ (bounds_minX_nonpos cfg e) hb1 hb2,
    clampAxis_move_le _ _ _ (bounds_minY_nonpos cfg e) hb3 hb4,
    clampAxis_move_sign _ _ _ (bounds_minY_nonpos cfg e) hb3 hb4,
    rfl,
    fun hpin hdx =>
      clampAxis_pinned _ _ _ (bounds_minX_nonpos cfg e) hpin hdx⟩

lemma inBounds_pinned : inBounds (bounds cfgA envA) (⟨-1500, 0⟩ : Vec2) := by
  unfold cfgA envA
  rw [bounds_eval_500]
  exact ⟨le_refl _, by norm_num, le_refl _, le_refl _⟩

/-- Witness for C10: dragging leftward by 5 px with the offset already pinned
at minX = -1500. -/
theorem move_step_bounded_witness :
    ((⟨⟨-1500, 0⟩, true, ⟨0, 0⟩, ⟨0, 0⟩, [], none, 1⟩ : CState).isDragging =
        true ∧
      inBounds (bounds cfgA envA)
        (⟨⟨-1500, 0⟩, true, ⟨0, 0⟩, ⟨0, 0⟩, [], none, 1⟩ : CState).offset) ∧
    (|(stepEvent cfgA envA ⟨⟨-1500, 0⟩, true, ⟨0, 0⟩, ⟨0, 0⟩, [], none, 1⟩
          (.pointerMove ⟨-5, 0⟩)).offset.x -
        (⟨⟨-1500, 0⟩, true, ⟨0, 0⟩, ⟨0, 0⟩, [], none, 1⟩ :
          CState).offset.x| ≤
      |(⟨-5, 0⟩ : Vec2).x -
        (⟨⟨-1500, 0⟩, true, ⟨0, 0⟩, ⟨0, 0⟩, [], none, 1⟩ :
          CState).lastPos.x| ∧
    0 ≤ ((stepEvent cfgA envA ⟨⟨-1500, 0⟩, true, ⟨0, 0⟩, ⟨0, 0⟩, [], none, 1⟩
          (.pointerMove ⟨-5, 0⟩)).offset.x -
        (⟨⟨-1500, 0⟩, true, ⟨0, 0⟩, ⟨0, 0⟩, [], none, 1⟩ :
          CState).offset.x) *
      ((⟨-5, 0⟩ : Vec2).x -
        (⟨⟨-1500, 0⟩, true, ⟨0, 0⟩, ⟨0, 0⟩, [], none, 1⟩ :
          CState).lastPos.x) ∧
    |(stepEvent cfgA envA ⟨⟨-1500, 0⟩, true, ⟨0, 0⟩, ⟨0, 0⟩, [], none, 1⟩
          (.pointerMove ⟨-5, 0⟩)).offset.y -
        (⟨⟨-1500, 0⟩, true, ⟨0, 0⟩, ⟨0, 0⟩, [], none, 1⟩ :
          CState).offset.y| ≤
      |(⟨-5, 0⟩ : Vec2).y -
        (⟨⟨-1500, 0⟩, true, ⟨0, 0⟩, ⟨0, 0⟩, [], none, 1⟩ :
          CState).lastPos.y| ∧
    0 ≤ ((stepEvent cfgA envA ⟨⟨-1500, 0⟩, true, ⟨0, 0⟩, ⟨0, 0⟩, [], none, 1⟩
          (.pointerMove ⟨-5, 0⟩)).offset.y -
        (⟨⟨-1500, 0⟩, true, ⟨0, 0⟩, ⟨0, 0⟩, [], none, 1⟩ :
          CState).offset.y) *
      ((⟨-5, 0⟩ : Vec2).y -
        (⟨⟨-1500, 0⟩, true, ⟨0, 0⟩, ⟨0, 0⟩, [], none, 1⟩ :
          CState).lastPos.y) ∧
    (stepEvent cfgA envA ⟨⟨-1500, 0⟩, true, ⟨0, 0⟩, ⟨0, 0⟩, [], none, 1⟩
        (.pointerMove ⟨-5, 0⟩)).velocity =
      ⟨(⟨-5, 0⟩ : Vec2).x -
        (⟨⟨-1500, 0⟩, true, ⟨0, 0⟩, ⟨0, 0⟩, [], none, 1⟩ :
          CState).lastPos.x,
       (⟨-5, 0⟩ : Vec2).y -
        (⟨⟨-1500, 0⟩, true, ⟨0, 0⟩, ⟨0, 0⟩, [], none, 1⟩ :
          CState).lastPos.y⟩ ∧
    ((⟨⟨-1500, 0⟩, true, ⟨0, 0⟩, ⟨0, 0⟩, [], none, 1⟩ :
          CState).offset.x = (bounds cfgA envA).minX →
      (⟨-5, 0⟩ : Vec2).x -
        (⟨⟨-1500, 0⟩, true, ⟨0, 0⟩, ⟨0, 0⟩, [], none, 1⟩ :
          CState).lastPos.x ≤ 0 →
      (stepEvent cfgA envA ⟨⟨-1500, 0⟩, true, ⟨0, 0⟩, ⟨0, 0⟩, [], none, 1⟩
          (.pointerMove ⟨-5, 0⟩)).offset.x =
        (⟨⟨-1500, 0⟩, true, ⟨0, 0⟩, ⟨0, 0⟩, [], none, 1⟩ :
          CState).offset.x)) :=
  ⟨⟨rfl, inBounds_pinned⟩,
   move_step_bounded cfgA envA
     ⟨⟨-1500, 0⟩, true, ⟨0, 0⟩, ⟨0, 0⟩, [], none, 1⟩ ⟨-5, 0⟩ rfl
     inBounds_pinned⟩

end Canvas
